import Mathlib

/-!
Verification of the file-monitoring session store.

Shallow embedding of the repository's storage layer (`src/database/init.sql`:
tables, constraints, views, the `close_old_sessions` and `get_current_editors`
functions and the `trg_comment_changes` trigger) together with the frontend
timeline grouping (`src/unnamed/part_000`).  The HTTP backend is not part of
the sources; where a claim depends on it, the corresponding operation is
modelled from the specification and marked as such in its doc comment.

Timestamps are modelled as `Int` (seconds); `CURRENT_TIMESTAMP` becomes an
explicit `now` argument.  Row identifiers (UUIDs in the schema) are modelled
as `Nat`.
-/

namespace FileMonitoring

/-- Row of the `users` table (init.sql lines 4-9): primary key `id`,
`UNIQUE NOT NULL` username.  The `email` and `created_at` columns play no
role in any claim and are omitted. -/
structure UserRow where
  id : Nat
  username : String
deriving DecidableEq

/-- Row of the `files` table (init.sql lines 12-17): primary key `id`,
`UNIQUE NOT NULL` file_path, `NOT NULL` file_name. -/
structure FileRow where
  id : Nat
  file_path : String
  file_name : String
deriving DecidableEq

/-- Row of the `file_sessions` table (init.sql lines 20-31). `ended_at` is
nullable (`none` ⇔ the session is open); `is_commented` defaults to `FALSE`
and `resume_count` to `0`. -/
structure SessionRow where
  id : Nat
  user_id : Nat
  file_id : Nat
  started_at : Int
  last_activity : Int
  ended_at : Option Int
  hash_before : Option String
  hash_after : Option String
  is_commented : Bool
  resume_count : Nat
deriving DecidableEq

/-- Row of the `file_events` table (init.sql lines 34-40). -/
structure EventRow where
  id : Nat
  session_id : Nat
  event_type : String
  file_hash : Option String
  event_timestamp : Int
deriving DecidableEq

/-- Row of the `comments` table (init.sql lines 43-50): primary key `id`,
`session_id UUID NOT NULL UNIQUE REFERENCES file_sessions(id)`,
`user_id NOT NULL REFERENCES users(id)`, `NOT NULL` content and change_type. -/
structure CommentRow where
  id : Nat
  session_id : Nat
  user_id : Nat
  content : String
  change_type : String
  created_at : Int
deriving DecidableEq

/-- The whole database state: the five tables relevant to the claims
(the `reports` table has no lifecycle logic and is omitted). -/
structure DBState where
  users : List UserRow
  files : List FileRow
  file_sessions : List SessionRow
  file_events : List EventRow
  comments : List CommentRow
deriving DecidableEq

/-- Staleness predicate of `close_old_sessions` (init.sql lines 126-127):
`ended_at IS NULL AND last_activity < CURRENT_TIMESTAMP - max_age_hours hours`,
with the interval expressed in seconds. -/
def staleP (now maxAgeHours : Int) (s : SessionRow) : Bool :=
  s.ended_at.isNone && decide (s.last_activity < now - maxAgeHours * 3600)

/-- The `close_old_sessions` SQL function (init.sql lines 119-132): one
conditional `UPDATE` setting `ended_at = last_activity` on every row matching
the staleness predicate, returning `ROW_COUNT`, the number of rows updated. -/
def close_old_sessions (maxAgeHours now : Int) (st : DBState) : DBState × Nat :=
  ({ st with
      file_sessions := st.file_sessions.map fun s =>
        if staleP now maxAgeHours s then { s with ended_at := some s.last_activity } else s },
   (st.file_sessions.filter (staleP now maxAgeHours)).length)

theorem staleP_iff (now maxAgeHours : Int) (s : SessionRow) :
    staleP now maxAgeHours s = true ↔
      s.ended_at = none ∧ s.last_activity < now - maxAgeHours * 3600 := by
  simp [staleP, Option.isNone_iff_eq_none]

/-- Helper characterisation of `close_old_sessions`, shared by the theorems
about the reclaimer: the code's boolean staleness test is replaced by the
specification-side proposition, and the returned row count by a `countP`. -/
theorem close_old_sessions_eq (maxAgeHours now : Int) (st : DBState) :
    close_old_sessions maxAgeHours now st =
      ({ st with
          file_sessions := st.file_sessions.map fun s =>
            if s.ended_at = none ∧ s.last_activity < now - maxAgeHours * 3600 then
              { s with ended_at := some s.last_activity }
            else s },
       st.file_sessions.countP fun s =>
         decide (s.ended_at = none ∧ s.last_activity < now - maxAgeHours * 3600)) := by
  unfold close_old_sessions
  refine Prod.ext ?_ ?_
  · simp only
    congr 1
    apply List.map_congr_left
    intro s _
    by_cases h : s.ended_at = none ∧ s.last_activity < now - maxAgeHours * 3600
    · rw [if_pos ((staleP_iff now maxAgeHours s).mpr h), if_pos h]
    · rw [if_neg (fun hb => h ((staleP_iff now maxAgeHours s).mp hb)), if_neg h]
  · simp only [List.countP_eq_length_filter]
    congr 1
    apply List.filter_congr
    intro s _
    by_cases h : s.ended_at = none ∧ s.last_activity < now - maxAgeHours * 3600
    · rw [(staleP_iff now maxAgeHours s).mpr h, decide_eq_true h]
    · rw [Bool.eq_false_iff.mpr fun hb => h ((staleP_iff now maxAgeHours s).mp hb),
        decide_eq_false h]

/-- C3: `close_old_sessions` closes exactly the sessions that are open with
`last_activity` older than `now − maxAgeHours` (strictly), by setting each such
session's `ended_at` to that session's own `last_activity` (not to `now`),
leaves every other row as it is, and returns the number of sessions so closed;
the whole effect is that of the single conditional update of init.sql
lines 124-130. -/
theorem close_old_sessions_spec (maxAgeHours now : Int) (st : DBState) :
    close_old_sessions maxAgeHours now st =
      ({ st with
          file_sessions := st.file_sessions.map fun s =>
            if s.ended_at = none ∧ s.last_activity < now - maxAgeHours * 3600 then
              { s with ended_at := some s.last_activity }
            else s },
       st.file_sessions.countP fun s =>
         decide (s.ended_at = none ∧ s.last_activity < now - maxAgeHours * 3600)) :=
  close_old_sessions_eq maxAgeHours now st

/-- A user `alice` as a concrete row. -/
def aliceU : UserRow := ⟨1, "alice"⟩

/-- A monitored file as a concrete row. -/
def pyFile : FileRow := ⟨1, "/monitor/a.py", "a.py"⟩

/-- An open session whose `last_activity` equals the reclaimer's call time. -/
def freshOpenSession : SessionRow := ⟨1, 1, 1, 90, 100, none, none, none, false, 0⟩

/-- State holding one open session with `last_activity = 100`. -/
def c4State : DBState := ⟨[aliceU], [pyFile], [freshOpenSession], [], []⟩

/-- C4 counterexample: the claim "reclaimStale(0) closes every session open at
the time of the call, regardless of how recent its last_activity is" fails on
the code: with `now = 100`, a session whose `last_activity` is exactly `100`
is open at call time, yet `close_old_sessions 0` leaves it open and reports
zero closed, because the SQL predicate `last_activity < CURRENT_TIMESTAMP`
(init.sql line 127) is strict. -/
theorem reclaim_zero_counterexample :
    freshOpenSession ∈ c4State.file_sessions ∧ freshOpenSession.ended_at = none ∧
    close_old_sessions 0 100 c4State = (c4State, 0) := by decide

/-- C4 (amended): `close_old_sessions 0` closes exactly the open sessions whose
`last_activity` is strictly earlier than the call time, setting each closed
session's `ended_at` to its own `last_activity`; an open session whose
`last_activity` is not earlier than the call time is left untouched. -/
theorem reclaim_zero_closes_strictly_older (now : Int) (st : DBState) :
    (close_old_sessions 0 now st).1.file_sessions =
      (st.file_sessions.map fun s =>
        if s.ended_at = none ∧ s.last_activity < now then
          { s with ended_at := some s.last_activity }
        else s) ∧
    (close_old_sessions 0 now st).2 =
      st.file_sessions.countP fun s => decide (s.ended_at = none ∧ s.last_activity < now) := by
  have h := close_old_sessions_eq 0 now st
  constructor
  · have h1 := congrArg (fun p => (Prod.fst p).file_sessions) h
    simpa using h1
  · have h2 := congrArg Prod.snd h
    simpa using h2

/-- Zipping a list with a mapped copy of itself pairs each element with its
image. -/
theorem zip_map_self {α β : Type} (f : α → β) (l : List α) :
    l.zip (l.map f) = l.map fun a => (a, f a) := by
  induction l with
  | nil => rfl
  | cons a t ih => simp [ih]

/-- C10: the reclaimer's frame: `close_old_sessions` leaves the `users`,
`files`, `file_events` and `comments` tables untouched (in particular no close
event is appended to `file_events`), and for every session row it changes at
most the `ended_at` field — `id`, `user_id`, `file_id`, `started_at`,
`last_activity`, `hash_before`, `hash_after`, `is_commented` and
`resume_count` are all preserved, and a row not matching the staleness
predicate is exactly unchanged. -/
theorem close_old_sessions_frame (maxAgeHours now : Int) (st : DBState) :
    ((close_old_sessions maxAgeHours now st).1.users = st.users ∧
     (close_old_sessions maxAgeHours now st).1.files = st.files ∧
     (close_old_sessions maxAgeHours now st).1.file_events = st.file_events ∧
     (close_old_sessions maxAgeHours now st).1.comments = st.comments) ∧
    (close_old_sessions maxAgeHours now st).1.file_sessions.length =
      st.file_sessions.length ∧
    ∀ p ∈ st.file_sessions.zip (close_old_sessions maxAgeHours now st).1.file_sessions,
      p.2.id = p.1.id ∧ p.2.user_id = p.1.user_id ∧ p.2.file_id = p.1.file_id ∧
      p.2.started_at = p.1.started_at ∧ p.2.last_activity = p.1.last_activity ∧
      p.2.hash_before = p.1.hash_before ∧ p.2.hash_after = p.1.hash_after ∧
      p.2.is_commented = p.1.is_commented ∧ p.2.resume_count = p.1.resume_count ∧
      (¬(p.1.ended_at = none ∧ p.1.last_activity < now - maxAgeHours * 3600) →
        p.2 = p.1) := by
  refine ⟨⟨rfl, rfl, rfl, rfl⟩, by simp [close_old_sessions], ?_⟩
  intro p hp
  have hz : st.file_sessions.zip
      ((close_old_sessions maxAgeHours now st).1.file_sessions) =
      st.file_sessions.map fun s =>
        (s, if staleP now maxAgeHours s then { s with ended_at := some s.last_activity }
            else s) := by
    exact zip_map_self _ st.file_sessions
  rw [hz] at hp
  obtain ⟨s, hs, hps⟩ := List.mem_map.mp hp
  subst hps
  by_cases h : s.ended_at = none ∧ s.last_activity < now - maxAgeHours * 3600
  · have hb : staleP now maxAgeHours s = true := (staleP_iff now maxAgeHours s).mpr h
    simp [hb, h]
  · have hb : staleP now maxAgeHours s = false :=
      Bool.eq_false_iff.mpr fun hx => h ((staleP_iff now maxAgeHours s).mp hx)
    simp [hb]

/-- Insert admissibility for `users` per the DDL (init.sql lines 4-9):
primary-key uniqueness of `id` and the `UNIQUE` constraint on `username`. -/
def userInsertOk (st : DBState) (u : UserRow) : Bool :=
  st.users.all fun v => v.id != u.id && v.username != u.username

/-- `INSERT INTO users` under the table's constraints. -/
def insertUser (st : DBState) (u : UserRow) : Option DBState :=
  if userInsertOk st u then some { st with users := st.users ++ [u] } else none

/-- Insert admissibility for `files` per the DDL (init.sql lines 12-17):
primary-key uniqueness of `id` and the `UNIQUE` constraint on `file_path`. -/
def fileInsertOk (st : DBState) (f : FileRow) : Bool :=
  st.files.all fun g => g.id != f.id && g.file_path != f.file_path

/-- `INSERT INTO files` under the table's constraints. -/
def insertFile (st : DBState) (f : FileRow) : Option DBState :=
  if fileInsertOk st f then some { st with files := st.files ++ [f] } else none

/-- Insert admissibility for `file_sessions` per the DDL (init.sql lines
20-31 and 62-66): primary-key uniqueness of `id` and the two foreign keys.
The partial index `idx_file_sessions_active` on
`(user_id, file_id, ended_at) WHERE ended_at IS NULL` (line 66) is declared
without `UNIQUE`, so the schema imposes no uniqueness on open sessions per
(user_id, file_id) pair and this check contains none. -/
def sessionInsertOk (st : DBState) (s : SessionRow) : Bool :=
  (st.file_sessions.all fun t => t.id != s.id) &&
  (st.users.any fun u => u.id == s.user_id) &&
  (st.files.any fun f => f.id == s.file_id)

/-- Modelled from the spec: the insert branch of `startOrResumeSession`
(spec §4.1) — the backend performing it is not among the sources.  The new
row is open and takes the schema defaults of init.sql lines 29-30:
`is_commented = FALSE`, `resume_count = 0`, with
`started_at = last_activity = timestamp`. -/
def startSession (st : DBState) (sid uid fid : Nat) (t : Int) (h : Option String) :
    Option DBState :=
  if sessionInsertOk st ⟨sid, uid, fid, t, t, none, h, none, false, 0⟩ then
    some { st with
            file_sessions := st.file_sessions ++ [⟨sid, uid, fid, t, t, none, h, none, false, 0⟩] }
  else none

/-- Modelled from the spec: the resume branch of `startOrResumeSession`
(spec §4.1) — increments `resume_count` and refreshes `last_activity` on the
open session with the given id. -/
def resumeSession (st : DBState) (sid : Nat) (t : Int) : DBState :=
  { st with
      file_sessions := st.file_sessions.map fun s =>
        if s.id == sid && s.ended_at.isNone then
          { s with resume_count := s.resume_count + 1, last_activity := t }
        else s }

/-- Modelled from the spec: `heartbeat` (spec §4.1) — refreshes
`last_activity` and, when a hash is supplied, `hash_after` on the open session
with the given id. -/
def heartbeatSession (st : DBState) (sid : Nat) (t : Int) (h : Option String) : DBState :=
  { st with
      file_sessions := st.file_sessions.map fun s =>
        if s.id == sid && s.ended_at.isNone then
          { s with last_activity := t,
                   hash_after := if h.isSome then h else s.hash_after }
        else s }

/-- Modelled from the spec: `closeSession` (spec §4.1) — sets `ended_at` (and
`hash_after` when supplied) on the open session with the given id; a no-op on
an already closed session. -/
def closeSessionOp (st : DBState) (sid : Nat) (t : Int) (h : Option String) : DBState :=
  { st with
      file_sessions := st.file_sessions.map fun s =>
        if s.id == sid && s.ended_at.isNone then
          { s with ended_at := some t,
                   hash_after := if h.isSome then h else s.hash_after }
        else s }

/-- Insert admissibility for `file_events` per the DDL (init.sql lines 34-40):
primary-key uniqueness of `id` and the session foreign key. -/
def eventInsertOk (st : DBState) (e : EventRow) : Bool :=
  (st.file_events.all fun d => d.id != e.id) &&
  (st.file_sessions.any fun s => s.id == e.session_id)

/-- `INSERT INTO file_events` under the table's constraints. -/
def insertEvent (st : DBState) (e : EventRow) : Option DBState :=
  if eventInsertOk st e then some { st with file_events := st.file_events ++ [e] } else none

/-- Insert admissibility for `comments` per the DDL (init.sql lines 43-50):
primary-key uniqueness of `id`, the `UNIQUE` constraint on `session_id`, and
the session and user foreign keys. -/
def commentInsertOk (st : DBState) (c : CommentRow) : Bool :=
  (st.comments.all fun d => d.id != c.id && d.session_id != c.session_id) &&
  (st.file_sessions.any fun s => s.id == c.session_id) &&
  (st.users.any fun u => u.id == c.user_id)

/-- Body of the `update_session_commented_flag` trigger function
(init.sql lines 161-175): `UPDATE file_sessions SET is_commented = b WHERE
id = sid`. -/
def setCommented (sid : Nat) (b : Bool) (st : DBState) : DBState :=
  { st with
      file_sessions := st.file_sessions.map fun s =>
        if s.id == sid then { s with is_commented := b } else s }

/-- `INSERT INTO comments` under the table's constraints, followed by the
`trg_comment_changes` AFTER INSERT trigger (init.sql lines 164-167, 177-180)
setting `is_commented = TRUE` on the commented session. -/
def insertComment (st : DBState) (c : CommentRow) : Option DBState :=
  if commentInsertOk st c then
    some (setCommented c.session_id true { st with comments := st.comments ++ [c] })
  else none

/-- `DELETE FROM comments WHERE id = cid`, followed by the
`trg_comment_changes` AFTER DELETE trigger (init.sql lines 168-171, 177-180)
setting `is_commented = FALSE` on the formerly commented session. -/
def deleteComment (st : DBState) (cid : Nat) : DBState :=
  match st.comments.find? (fun c => c.id == cid) with
  | none => st
  | some c =>
      setCommented c.session_id false
        { st with comments := st.comments.filter fun d => d.id != cid }

/-- The empty database produced by running the DDL. -/
def initState : DBState := ⟨[], [], [], [], []⟩

/-- Reachable states of the session store: every state produced from the
empty database by the system's write operations — identity inserts, the
session lifecycle, event appends, the reclaimer, and comment
insertion/deletion under the table constraints with the trigger.  Writes the
schema would admit but no code path performs (e.g. a direct UPDATE of
`is_commented`) are not steps. -/
inductive Reach : DBState → Prop where
  | init : Reach initState
  | user {st u st'} : Reach st → insertUser st u = some st' → Reach st'
  | file {st f st'} : Reach st → insertFile st f = some st' → Reach st'
  | start {st sid uid fid t h st'} :
      Reach st → startSession st sid uid fid t h = some st' → Reach st'
  | resume {st sid t} : Reach st → Reach (resumeSession st sid t)
  | beat {st sid t h} : Reach st → Reach (heartbeatSession st sid t h)
  | close {st sid t h} : Reach st → Reach (closeSessionOp st sid t h)
  | event {st e st'} : Reach st → insertEvent st e = some st' → Reach st'
  | reclaim {st maxAgeHours now} : Reach st → Reach (close_old_sessions maxAgeHours now st).1
  | cAdd {st c st'} : Reach st → insertComment st c = some st' → Reach st'
  | cDel {st cid} : Reach st → Reach (deleteComment st cid)

/-- State after inserting user `alice`. -/
def stA : DBState := ⟨[aliceU], [], [], [], []⟩

/-- State after additionally inserting the monitored file. -/
def stB : DBState := ⟨[aliceU], [pyFile], [], [], []⟩

/-- State after `alice` starts a first session (id 1) on the file. -/
def stC : DBState :=
  ⟨[aliceU], [pyFile], [⟨1, 1, 1, 10, 10, none, none, none, false, 0⟩], [], []⟩

/-- State after a second start insert (id 2) for the same (user, file) pair
while session 1 is still open — the losing half of a start/start race. -/
def dupOpenState : DBState :=
  ⟨[aliceU], [pyFile],
   [⟨1, 1, 1, 10, 10, none, none, none, false, 0⟩,
    ⟨2, 1, 1, 20, 20, none, none, none, false, 0⟩], [], []⟩

theorem insertAliceEq : insertUser initState aliceU = some stA := by decide

theorem insertPyEq : insertFile stA pyFile = some stB := by decide

theorem startFirstEq : startSession stB 1 1 1 10 none = some stC := by decide

theorem startSecondEq : startSession stC 2 1 1 20 none = some dupOpenState := by decide

theorem dupOpen_reachable : Reach dupOpenState :=
  Reach.start (Reach.start (Reach.file (Reach.user Reach.init insertAliceEq)
    insertPyEq) startFirstEq) startSecondEq

/-- C1 (code bug): the schema does not enforce at-most-one-open-session per
(user, file).  The only storage object covering open sessions,
`idx_file_sessions_active` (init.sql line 66), is a plain index declared
without `UNIQUE`, so a second `INSERT` of an open session for a pair that
already has one is accepted: the store reaches a state with two rows for
user 1 on file 1 both having `ended_at IS NULL`, which the claimed
storage-enforced invariant rules out. -/
theorem open_session_uniqueness_violated :
    Reach dupOpenState ∧
    ∃ s1, s1 ∈ dupOpenState.file_sessions ∧
      ∃ s2, s2 ∈ dupOpenState.file_sessions ∧
        s1.id ≠ s2.id ∧ s1.user_id = s2.user_id ∧ s1.file_id = s2.file_id ∧
        s1.ended_at = none ∧ s2.ended_at = none :=
  ⟨dupOpen_reachable, by decide⟩

/-- Invariant tying the `comments` table constraints and the trigger-kept flag
together: comment→session foreign-key integrity, uniqueness of comment ids and
of commented session ids, and `is_commented` ⇔ a comment row exists. -/
def SchemaInv (st : DBState) : Prop :=
  (∀ c ∈ st.comments, ∃ s ∈ st.file_sessions, s.id = c.session_id) ∧
  st.comments.Pairwise (fun a b => a.id ≠ b.id) ∧
  st.comments.Pairwise (fun a b => a.session_id ≠ b.session_id) ∧
  ∀ s ∈ st.file_sessions, (s.is_commented = true ↔ ∃ c ∈ st.comments, c.session_id = s.id)

/-- A session-table rewrite that preserves each row's `id` and `is_commented`
preserves the invariant.  This covers resume, heartbeat, close and the
reclaimer. -/
theorem schemaInv_map_sessions (st : DBState) (g : SessionRow → SessionRow)
    (hid : ∀ s, (g s).id = s.id) (hfl : ∀ s, (g s).is_commented = s.is_commented)
    (h : SchemaInv st) :
    SchemaInv { st with file_sessions := st.file_sessions.map g } := by
  obtain ⟨fk, pid, psid, fl⟩ := h
  refine ⟨?_, pid, psid, ?_⟩
  · intro c hc
    obtain ⟨s, hs, hsi⟩ := fk c hc
    exact ⟨g s, List.mem_map_of_mem g hs, by rw [hid]; exact hsi⟩
  · intro s' hs'
    obtain ⟨s, hs, rfl⟩ := List.mem_map.mp hs'
    rw [hfl, hid]
    exact fl s hs

theorem reach_schemaInv {st : DBState} (h : Reach st) : SchemaInv st := by
  induction h with
  | init =>
      refine ⟨?_, ?_, ?_, ?_⟩ <;> simp [initState]
  | user _ heq ih =>
      unfold insertUser at heq
      split at heq
      · cases heq
        exact ih
      · cases heq
  | file _ heq ih =>
      unfold insertFile at heq
      split at heq
      · cases heq
        exact ih
      · cases heq
  | @start st sid uid fid t hh st' _ heq ih =>
      unfold startSession at heq
      split at heq
      case isFalse => cases heq
      case isTrue hok =>
        cases heq
        obtain ⟨fk, pid, psid, fl⟩ := ih
        have hids : ∀ x ∈ st.file_sessions, x.id ≠ sid := by
          intro x hx
          have h1 := (Bool.and_eq_true _ _).mp ((Bool.and_eq_true _ _).mp hok).1
          have h2 := List.all_eq_true.mp h1.1 x hx
          simpa using h2
        refine ⟨?_, pid, psid, ?_⟩
        · intro c hc
          obtain ⟨s, hs, hsi⟩ := fk c hc
          exact ⟨s, List.mem_append_left _ hs, hsi⟩
        · intro s hs
          rcases List.mem_append.mp hs with hold | hnew
          · rw [fl s hold]
          · have hseq : s = ⟨sid, uid, fid, t, t, none, hh, none, false, 0⟩ := by
              simpa using hnew
            subst hseq
            simp only [Bool.false_eq_true, false_iff]
            rintro ⟨c, hc, hcs⟩
            obtain ⟨s0, hs0, hs0i⟩ := fk c hc
            exact hids s0 hs0 (hs0i.trans hcs)
  | resume _ ih =>
      exact schemaInv_map_sessions _ _ (fun s => by split <;> rfl)
        (fun s => by split <;> rfl) ih
  | beat _ ih =>
      exact schemaInv_map_sessions _ _ (fun s => by split <;> rfl)
        (fun s => by split <;> rfl) ih
  | close _ ih =>
      exact schemaInv_map_sessions _ _ (fun s => by split <;> rfl)
        (fun s => by split <;> rfl) ih
  | reclaim _ ih =>
      exact schemaInv_map_sessions _ _ (fun s => by split <;> rfl)
        (fun s => by split <;> rfl) ih
  | event _ heq ih =>
      unfold insertEvent at heq
      split at heq
      · cases heq
        exact ih
      · cases heq
  | @cAdd st c st' _ heq ih =>
      unfold insertComment at heq
      split at heq
      case isFalse => cases heq
      case isTrue hok =>
        cases heq
        obtain ⟨fk, pid, psid, fl⟩ := ih
        have hok1 := (Bool.and_eq_true _ _).mp ((Bool.and_eq_true _ _).mp hok).1
        have hdistinct : ∀ d ∈ st.comments, d.id ≠ c.id ∧ d.session_id ≠ c.session_id := by
          intro d hd
          have := List.all_eq_true.mp hok1.1 d hd
          constructor
          · simpa using ((Bool.and_eq_true _ _).mp this).1
          · simpa using ((Bool.and_eq_true _ _).mp this).2
        have hsess : ∃ s ∈ st.file_sessions, s.id = c.session_id := by
          obtain ⟨s, hs, hsp⟩ := List.any_eq_true.mp hok1.2
          exact ⟨s, hs, by simpa using hsp⟩
        refine ⟨?_, ?_, ?_, ?_⟩
        · intro d hd
          rcases List.mem_append.mp hd with hold | hnew
          · obtain ⟨s, hs, hsi⟩ := fk d hold
            refine ⟨_, List.mem_map_of_mem _ hs, ?_⟩
            split <;> exact hsi
          · obtain ⟨s, hs, hsi⟩ := hsess
            have hds : d = c := by simpa using hnew
            subst hds
            refine ⟨_, List.mem_map_of_mem _ hs, ?_⟩
            split <;> exact hsi
        · show List.Pairwise (fun a b => a.id ≠ b.id) (st.comments ++ [c])
          rw [List.pairwise_append]
          exact ⟨pid, by simp, by
            intro a ha b hb
            have hbc : b = c := by simpa using hb
            subst hbc
            exact (hdistinct a ha).1⟩
        · show List.Pairwise (fun a b => a.session_id ≠ b.session_id) (st.comments ++ [c])
          rw [List.pairwise_append]
          exact ⟨psid, by simp, by
            intro a ha b hb
            have hbc : b = c := by simpa using hb
            subst hbc
            exact (hdistinct a ha).2⟩
        · intro s' hs'
          obtain ⟨s, hs, rfl⟩ := List.mem_map.mp hs'
          by_cases hcs : s.id = c.session_id
          · rw [if_pos (beq_iff_eq.mpr hcs)]
            constructor
            · intro _
              exact ⟨c, List.mem_append_right _ (by simp), hcs.symm⟩
            · intro _
              rfl
          · rw [if_neg (by simp [hcs])]
            rw [fl s hs]
            constructor
            · rintro ⟨d, hd, hdi⟩
              exact ⟨d, List.mem_append_left _ hd, hdi⟩
            · rintro ⟨d, hd, hdi⟩
              rcases List.mem_append.mp hd with hold | hnew
              · exact ⟨d, hold, hdi⟩
              · have : d = c := by simpa using hnew
                subst this
                exact absurd (hdi.symm) hcs
  | @cDel st cid _ ih =>
      unfold deleteComment
      cases hfind : st.comments.find? (fun c => c.id == cid) with
      | none => exact ih
      | some c =>
          obtain ⟨fk, pid, psid, fl⟩ := ih
          have hcmem : c ∈ st.comments := List.mem_of_find?_eq_some hfind
          have hcid : c.id = cid := by simpa using List.find?_some hfind
          refine ⟨?_, ?_, ?_, ?_⟩
          · intro d hd
            have hd' : d ∈ st.comments := List.mem_of_mem_filter hd
            obtain ⟨s, hs, hsi⟩ := fk d hd'
            refine ⟨_, List.mem_map_of_mem _ hs, ?_⟩
            split <;> exact hsi
          · exact List.Pairwise.sublist (List.filter_sublist _) pid
          · exact List.Pairwise.sublist (List.filter_sublist _) psid
          · intro s' hs'
            obtain ⟨s, hs, rfl⟩ := List.mem_map.mp hs'
            by_cases hcs : s.id = c.session_id
            · rw [if_pos (beq_iff_eq.mpr hcs)]
              refine iff_of_false (by simp) ?_
              rintro ⟨d, hd, hdi⟩
              have hd' : d ∈ st.comments := List.mem_of_mem_filter hd
              have hdne : d.id ≠ cid := by
                have := List.of_mem_filter hd
                simpa using this
              have hdc : d ≠ c := fun hdc => hdne (hdc ▸ hcid)
              have hdcs : d.session_id ≠ c.session_id :=
                (psid.forall fun _ _ hab => Ne.symm hab) hd' hcmem hdc
              have hdi' : d.session_id = s.id := hdi
              exact hdcs (hdi'.trans hcs)
            · rw [if_neg (by simp [hcs])]
              rw [fl s hs]
              constructor
              · rintro ⟨d, hd, hdi⟩
                refine ⟨d, List.mem_filter.mpr ⟨hd, ?_⟩, hdi⟩
                have hdc : d ≠ c := fun hdc => hcs ((hdc ▸ hdi : c.session_id = s.id).symm)
                have hdid : d.id ≠ c.id :=
                  (pid.forall fun _ _ hab => Ne.symm hab) hd hcmem hdc
                simpa [hcid] using hdid
              · rintro ⟨d, hd, hdi⟩
                exact ⟨d, List.mem_of_mem_filter hd, hdi⟩

/-- The trigger's UPDATE leaves every session whose id matches with its flag
set to the written value. -/
theorem setCommented_flag (sid : Nat) (b : Bool) (st : DBState) :
    ∀ s ∈ (setCommented sid b st).file_sessions, s.id = sid → s.is_commented = b := by
  intro s hs hsid
  obtain ⟨s0, hs0, rfl⟩ := List.mem_map.mp hs
  by_cases hb : s0.id = sid
  · rw [if_pos (beq_iff_eq.mpr hb)]
  · rw [if_neg (by simp [hb])] at hsid ⊢
    exact absurd hsid hb

/-- C2: in every reachable state of the store, a session's `is_commented` flag
is `true` exactly when a `comments` row for that session exists; and the flag
is recomputed by the `trg_comment_changes` trigger as a side effect of the
comment change itself — inserting a comment sets the flag of its session to
`true`, deleting a comment resets it to `false` — never taken from a
client-supplied value (no reachability step writes the flag directly). -/
theorem is_commented_iff_comment_exists :
    (∀ st, Reach st → ∀ s ∈ st.file_sessions,
       (s.is_commented = true ↔ ∃ c ∈ st.comments, c.session_id = s.id)) ∧
    (∀ st c st', insertComment st c = some st' →
       ∀ s ∈ st'.file_sessions, s.id = c.session_id → s.is_commented = true) ∧
    (∀ st cid c, st.comments.find? (fun d => d.id == cid) = some c →
       ∀ s ∈ (deleteComment st cid).file_sessions, s.id = c.session_id →
         s.is_commented = false) := by
  refine ⟨fun st h => (reach_schemaInv h).2.2.2, ?_, ?_⟩
  · intro st c st' heq s hs hsid
    unfold insertComment at heq
    split at heq
    case isFalse => cases heq
    case isTrue =>
      cases heq
      exact setCommented_flag c.session_id true _ s hs hsid
  · intro st cid c hfind s hs hsid
    unfold deleteComment at hs
    rw [hfind] at hs
    exact setCommented_flag c.session_id false _ s hs hsid

/-- The session of `stC` after being closed at time 30. -/
def closedSession : SessionRow := ⟨1, 1, 1, 10, 10, some 30, none, none, false, 0⟩

/-- State with one closed, not yet commented session. -/
def stD : DBState := ⟨[aliceU], [pyFile], [closedSession], [], []⟩

/-- A concrete comment on session 1. -/
def demoComment : CommentRow := ⟨1, 1, 1, "fixed bug", "bugfix", 40⟩

/-- The closed session after the trigger set its flag. -/
def commentedSession : SessionRow := ⟨1, 1, 1, 10, 10, some 30, none, none, true, 0⟩

/-- State with the closed session carrying its comment. -/
def stE : DBState := ⟨[aliceU], [pyFile], [commentedSession], [], [demoComment]⟩

theorem closeFirstEq : closeSessionOp stC 1 30 none = stD := by decide

theorem addDemoCommentEq : insertComment stD demoComment = some stE := by decide

theorem stE_reachable : Reach stE :=
  Reach.cAdd
    (closeFirstEq ▸ Reach.close (Reach.start (Reach.file
      (Reach.user Reach.init insertAliceEq) insertPyEq) startFirstEq))
    addDemoCommentEq

/-- Witness for C2: on the concrete reachable state `stE`, the flag
equivalence yields that session 1, which carries a comment, has
`is_commented = true`. -/
theorem is_commented_iff_comment_exists_witness :
    commentedSession.is_commented = true :=
  (is_commented_iff_comment_exists.1 stE stE_reachable commentedSession
    (by decide)).mpr ⟨demoComment, by decide, by decide⟩

/-- Modelled from the spec: the enumerated change-type set (spec §3 gives
bugfix/feature/refactor/docs/other; the backend's `/change-types` endpoint is
not among the sources).  The schema default `'other'` of init.sql line 48 is a
member. -/
def changeTypes : List String := ["bugfix", "feature", "refactor", "docs", "other"]

/-- Typed errors of the Comment Binder (spec §4.3 / §7). -/
inductive CommentError where
  | invalidChangeType
  | emptyContent
  | sessionNotFound
  | sessionStillOpen
  | alreadyCommented
deriving DecidableEq

/-- A primary key not yet used by any comment row (the schema generates fresh
UUIDs via `gen_random_uuid()`). -/
def freshCommentId (st : DBState) : Nat :=
  (st.comments.map fun c => c.id).foldr max 0 + 1

/-- Modelled from the spec: blank content — empty or whitespace-only (the UI
of src/unnamed/part_000 line 127 refuses an empty comment box client-side; the
spec's `EmptyContent` covers blank content). -/
def isBlank (s : String) : Bool := s.data.all fun c => c.isWhitespace

/-- Modelled from the spec: `addComment` (spec §4.3) — the HTTP backend
implementing it is not among the sources.  It fails with `InvalidChangeType`
when the change type is outside the enumerated set, with `EmptyContent` when
the content is blank, with `SessionNotFound` when no session has the given id
and with `SessionStillOpen` when that session is open; otherwise it inserts
the comment row under the table constraints of init.sql lines 43-50 (trigger
included), and an insert refused by the constraints — in particular the
`UNIQUE` constraint on `session_id` — surfaces as `AlreadyCommented`. -/
def addComment (st : DBState) (sessionId authorId : Nat) (content changeType : String)
    (now : Int) : Except CommentError DBState :=
  if changeType ∈ changeTypes then
    if isBlank content then .error .emptyContent
    else
      match st.file_sessions.find? (fun s => s.id == sessionId) with
      | none => .error .sessionNotFound
      | some s =>
          if s.ended_at = none then .error .sessionStillOpen
          else
            match insertComment st
                ⟨freshCommentId st, sessionId, authorId, content, changeType, now⟩ with
            | some st' => .ok st'
            | none => .error .alreadyCommented
  else .error .invalidChangeType

/-- The state the caller holds after an `addComment` request: the new state on
success, the unchanged previous state on a typed error. -/
def applyAddComment (st : DBState) (sessionId authorId : Nat)
    (content changeType : String) (now : Int) : DBState :=
  match addComment st sessionId authorId content changeType now with
  | .ok st' => st'
  | .error _ => st

/-- C9: `addComment` validates its inputs — a change type outside the
enumerated set yields `InvalidChangeType`, and (for a valid change type) blank
content yields `EmptyContent`; in both cases the caller's state is unchanged,
so no comment is persisted. -/
theorem addComment_validates_input (st : DBState) (sessionId authorId : Nat)
    (content changeType : String) (now : Int) :
    (changeType ∉ changeTypes →
      addComment st sessionId authorId content changeType now =
        .error .invalidChangeType ∧
      applyAddComment st sessionId authorId content changeType now = st) ∧
    (changeType ∈ changeTypes → isBlank content = true →
      addComment st sessionId authorId content changeType now = .error .emptyContent ∧
      applyAddComment st sessionId authorId content changeType now = st) := by
  constructor
  · intro hct
    have h1 : addComment st sessionId authorId content changeType now =
        .error .invalidChangeType := by
      unfold addComment
      rw [if_neg hct]
    refine ⟨h1, ?_⟩
    unfold applyAddComment
    rw [h1]
  · intro hct hblank
    have h1 : addComment st sessionId authorId content changeType now =
        .error .emptyContent := by
      unfold addComment
      rw [if_pos hct, if_pos hblank]
    refine ⟨h1, ?_⟩
    unfold applyAddComment
    rw [h1]

/-- Witness for C9 at concrete inputs: a change type outside the enumerated
set is rejected with `InvalidChangeType` and the state is unchanged. -/
theorem addComment_validates_input_witness :
    addComment initState 1 1 "hi" "wat" 0 = .error .invalidChangeType ∧
    applyAddComment initState 1 1 "hi" "wat" 0 = initState :=
  (addComment_validates_input initState 1 1 "hi" "wat" 0).1 (by decide)

/-- C6: `addComment` fails with `SessionNotFound` when no session has the
given id, fails with `SessionStillOpen` when the session is open
(`ended_at IS NULL`), and a comment only ever attaches to an ended session:
whenever `addComment` succeeds, the target session exists and has ended. -/
theorem addComment_requires_ended_session (st : DBState) (sessionId authorId : Nat)
    (content changeType : String) (now : Int)
    (hct : changeType ∈ changeTypes) (hcontent : isBlank content = false) :
    ((∀ s ∈ st.file_sessions, s.id ≠ sessionId) →
      addComment st sessionId authorId content changeType now =
        .error .sessionNotFound) ∧
    (∀ s, st.file_sessions.find? (fun x => x.id == sessionId) = some s →
      s.ended_at = none →
      addComment st sessionId authorId content changeType now =
        .error .sessionStillOpen) ∧
    (∀ st', addComment st sessionId authorId content changeType now = .ok st' →
      ∃ s ∈ st.file_sessions, s.id = sessionId ∧ s.ended_at ≠ none) := by
  refine ⟨?_, ?_, ?_⟩
  · intro hnone
    unfold addComment
    rw [if_pos hct, if_neg (by rw [hcontent]; exact Bool.false_ne_true),
      List.find?_eq_none.mpr fun x hx => by simpa using hnone x hx]
  · intro s hfind hopen
    unfold addComment
    rw [if_pos hct, if_neg (by rw [hcontent]; exact Bool.false_ne_true)]
    simp only [hfind]
    rw [if_pos hopen]
  · intro st' hok
    unfold addComment at hok
    rw [if_pos hct, if_neg (by rw [hcontent]; exact Bool.false_ne_true)] at hok
    cases hfind : st.file_sessions.find? (fun x => x.id == sessionId) with
    | none =>
        simp only [hfind] at hok
        cases hok
    | some s =>
        simp only [hfind] at hok
        by_cases hend : s.ended_at = none
        · rw [if_pos hend] at hok
          cases hok
        · exact ⟨s, List.mem_of_find?_eq_some hfind,
            by simpa using List.find?_some hfind, hend⟩

/-- Witness for C6 at concrete inputs: on `stC`, whose single session 1 is
open, `addComment` for session 1 fails with `SessionStillOpen`, and for the
absent session 7 fails with `SessionNotFound`. -/
theorem addComment_requires_ended_session_witness :
    addComment stC 1 1 "note" "docs" 15 = .error .sessionStillOpen ∧
    addComment stC 7 1 "note" "docs" 15 = .error .sessionNotFound :=
  ⟨(addComment_requires_ended_session stC 1 1 "note" "docs" 15 (by decide)
      (by decide)).2.1 ⟨1, 1, 1, 10, 10, none, none, none, false, 0⟩ (by decide) rfl,
   (addComment_requires_ended_session stC 7 1 "note" "docs" 15 (by decide)
      (by decide)).1 (by decide)⟩

/-- Every member of a list of naturals is bounded by the fold of `max`. -/
theorem mem_le_foldr_max (l : List Nat) (x : Nat) (hx : x ∈ l) :
    x ≤ l.foldr max 0 := by
  induction l with
  | nil => cases hx
  | cons a t ih =>
      rcases List.mem_cons.mp hx with rfl | hxt
      · exact le_max_left _ _
      · exact le_trans (ih hxt) (le_max_right _ _)

/-- The generated comment id is unused in the comments table. -/
theorem freshCommentId_fresh (st : DBState) :
    ∀ c ∈ st.comments, c.id ≠ freshCommentId st := by
  intro c hc
  have hle : c.id ≤ (st.comments.map fun d => d.id).foldr max 0 :=
    mem_le_foldr_max _ _ (List.mem_map_of_mem _ hc)
  unfold freshCommentId
  omega

/-- `find?` by session id commutes with an id-preserving row rewrite. -/
theorem find?_map_id {g : SessionRow → SessionRow} (hid : ∀ s, (g s).id = s.id)
    (l : List SessionRow) (k : Nat) :
    (l.map g).find? (fun s => s.id == k) = (l.find? (fun s => s.id == k)).map g := by
  induction l with
  | nil => rfl
  | cons a t ih =>
      simp only [List.map_cons, List.find?_cons, hid a]
      cases hb : (a.id == k) <;> simp [ih]

/-- When a comment row for the session already exists, `addComment` (with
otherwise valid inputs and an ended target session) is refused by the
`UNIQUE (session_id)` constraint and surfaces `AlreadyCommented`, leaving the
caller's state unchanged. -/
theorem addComment_fails_when_commented (st : DBState) (sessionId a2 : Nat)
    (content2 ct2 : String) (t2 : Int) (s : SessionRow)
    (hct2 : ct2 ∈ changeTypes) (hcontent2 : isBlank content2 = false)
    (hfind : st.file_sessions.find? (fun x => x.id == sessionId) = some s)
    (hclosed : s.ended_at ≠ none)
    (hc : ∃ c ∈ st.comments, c.session_id = sessionId) :
    addComment st sessionId a2 content2 ct2 t2 = .error .alreadyCommented ∧
    applyAddComment st sessionId a2 content2 ct2 t2 = st := by
  obtain ⟨c0, hc0, hc0s⟩ := hc
  have hbad : commentInsertOk st ⟨freshCommentId st, sessionId, a2, content2, ct2, t2⟩
      = false := by
    unfold commentInsertOk
    have hall : (st.comments.all fun d =>
        d.id != (⟨freshCommentId st, sessionId, a2, content2, ct2, t2⟩ : CommentRow).id &&
        d.session_id !=
          (⟨freshCommentId st, sessionId, a2, content2, ct2, t2⟩ : CommentRow).session_id)
        = false := by
      refine Bool.eq_false_iff.mpr fun hall => ?_
      have h1 := List.all_eq_true.mp hall c0 hc0
      have h2 := ((Bool.and_eq_true _ _).mp h1).2
      rw [hc0s] at h2
      simp at h2
    rw [hall]
    rfl
  have hins : insertComment st ⟨freshCommentId st, sessionId, a2, content2, ct2, t2⟩
      = none := by
    unfold insertComment
    rw [if_neg (by rw [hbad]; exact Bool.false_ne_true)]
  have h1 : addComment st sessionId a2 content2 ct2 t2 = .error .alreadyCommented := by
    unfold addComment
    rw [if_pos hct2, if_neg (by rw [hcontent2]; exact Bool.false_ne_true)]
    simp only [hfind]
    rw [if_neg hclosed]
    simp only [hins]
  exact ⟨h1, by unfold applyAddComment; rw [h1]⟩

/-- C5: a session takes at most one comment.  With valid inputs, an existing
ended session with the given id, no comment on it yet, and a resolvable
author, a first `addComment` succeeds; any second `addComment` on the same
session (again with valid inputs) then fails with `AlreadyCommented` — the
insert is refused by the schema's `UNIQUE` constraint on
`comments.session_id` (init.sql line 45) — and the caller's state is
unchanged. -/
theorem addComment_conflict_on_second (st : DBState) (sessionId a1 a2 : Nat)
    (content1 content2 ct1 ct2 : String) (t1 t2 : Int) (s : SessionRow)
    (hct1 : ct1 ∈ changeTypes) (hcontent1 : isBlank content1 = false)
    (hct2 : ct2 ∈ changeTypes) (hcontent2 : isBlank content2 = false)
    (hfind : st.file_sessions.find? (fun x => x.id == sessionId) = some s)
    (hclosed : s.ended_at ≠ none)
    (hnoc : ∀ c ∈ st.comments, c.session_id ≠ sessionId)
    (hauthor : ∃ u ∈ st.users, u.id = a1) :
    ∃ st', addComment st sessionId a1 content1 ct1 t1 = .ok st' ∧
      addComment st' sessionId a2 content2 ct2 t2 = .error .alreadyCommented ∧
      applyAddComment st' sessionId a2 content2 ct2 t2 = st' := by
  have hmem := List.mem_of_find?_eq_some hfind
  have hsid : s.id = sessionId := by simpa using List.find?_some hfind
  have hok : commentInsertOk st ⟨freshCommentId st, sessionId, a1, content1, ct1, t1⟩
      = true := by
    unfold commentInsertOk
    refine (Bool.and_eq_true _ _).mpr ⟨(Bool.and_eq_true _ _).mpr ⟨?_, ?_⟩, ?_⟩
    · refine List.all_eq_true.mpr fun d hd => (Bool.and_eq_true _ _).mpr ⟨?_, ?_⟩
      · simpa using freshCommentId_fresh st d hd
      · simpa using hnoc d hd
    · exact List.any_eq_true.mpr ⟨s, hmem, by simpa using hsid⟩
    · obtain ⟨u, hu, hui⟩ := hauthor
      exact List.any_eq_true.mpr ⟨u, hu, by simpa using hui⟩
  have hfirst : addComment st sessionId a1 content1 ct1 t1 =
      .ok (setCommented sessionId true
        { st with comments :=
            st.comments ++ [⟨freshCommentId st, sessionId, a1, content1, ct1, t1⟩] }) := by
    unfold addComment
    rw [if_pos hct1, if_neg (by rw [hcontent1]; exact Bool.false_ne_true)]
    simp only [hfind]
    rw [if_neg hclosed]
    unfold insertComment
    rw [if_pos hok]
  have hid : ∀ x : SessionRow,
      ((fun x => if x.id == sessionId then { x with is_commented := true } else x) x).id
        = x.id := fun x => by dsimp only; split <;> rfl
  have hf2 : (setCommented sessionId true
      { st with comments :=
          st.comments ++ [⟨freshCommentId st, sessionId, a1, content1, ct1, t1⟩] }
      ).file_sessions.find? (fun x => x.id == sessionId)
      = some { s with is_commented := true } := by
    show (st.file_sessions.map _).find? _ = _
    rw [find?_map_id hid, hfind]
    have hred : (some s).map
        (fun x => if x.id == sessionId then { x with is_commented := true } else x) =
        some (if s.id == sessionId then { s with is_commented := true } else s) := rfl
    rw [hred, if_pos (beq_iff_eq.mpr hsid)]
  have hmem1 : (⟨freshCommentId st, sessionId, a1, content1, ct1, t1⟩ : CommentRow) ∈
      (setCommented sessionId true
        { st with comments :=
            st.comments ++ [⟨freshCommentId st, sessionId, a1, content1, ct1, t1⟩] }
        ).comments := by
    show _ ∈ st.comments ++ [_]
    exact List.mem_append_right _ (by simp)
  obtain ⟨h2, h3⟩ := addComment_fails_when_commented _ sessionId a2 content2 ct2 t2 _
    hct2 hcontent2 hf2 hclosed ⟨_, hmem1, rfl⟩
  exact ⟨_, hfirst, h2, h3⟩

/-- Witness for C5 on the concrete state `stD` (one closed, uncommented
session): the first `addComment` succeeds and the second fails with
`AlreadyCommented` leaving the state unchanged. -/
theorem addComment_conflict_on_second_witness :
    ∃ st', addComment stD 1 1 "fixed bug" "bugfix" 40 = .ok st' ∧
      addComment st' 1 2 "again" "docs" 50 = .error .alreadyCommented ∧
      applyAddComment st' 1 2 "again" "docs" 50 = st' :=
  addComment_conflict_on_second stD 1 1 2 "fixed bug" "again" "bugfix" "docs" 40 50
    closedSession (by decide) (by decide) (by decide) (by decide) (by decide)
    (by decide) (by decide) ⟨aliceU, by decide, by decide⟩

/-- SQL `LIKE` matching as used on init.sql line 155: `%` matches any
sequence, `_` any single character, every other pattern character matches
itself (escape sequences are not used by any caller and are not modelled). -/
def likeMatch : List Char → List Char → Bool
  | [], s => s.isEmpty
  | '%' :: ps, s => s.tails.any fun t => likeMatch ps t
  | '_' :: ps, s =>
      (match s with
       | [] => false
       | _ :: cs => likeMatch ps cs)
  | p :: ps, s =>
      (match s with
       | [] => false
       | c :: cs => p == c && likeMatch ps cs)

/-- `file_path LIKE file_path_pattern` on strings. -/
def sqlLike (pat s : String) : Bool := likeMatch pat.data s.data

/-- Result row of `get_current_editors` (init.sql lines 136-141). -/
structure EditorRow where
  username : String
  file_path : String
  file_name : String
  last_activity : Int
  session_id : Nat
deriving DecidableEq

/-- The body of `get_current_editors` before ordering (init.sql lines
145-155): open sessions joined with their user and file rows — ids are
primary keys, so the join partner is the `find?` lookup — filtered by `LIKE`
on the file path. -/
def editorRows (st : DBState) (pat : String) : List EditorRow :=
  st.file_sessions.filterMap fun s =>
    match st.users.find? (fun u => u.id == s.user_id),
          st.files.find? (fun f => f.id == s.file_id) with
    | some u, some f =>
        if s.ended_at.isNone && sqlLike pat f.file_path then
          some ⟨u.username, f.file_path, f.file_name, s.last_activity, s.id⟩
        else none
    | _, _ => none

/-- `ORDER BY last_activity DESC` as a boolean comparison. -/
def editorGE (a b : EditorRow) : Bool := decide (b.last_activity ≤ a.last_activity)

/-- The `get_current_editors` SQL function (init.sql lines 135-158): the
joined, filtered rows ordered by `last_activity DESC`. -/
def get_current_editors (st : DBState) (pat : String) : List EditorRow :=
  (editorRows st pat).mergeSort editorGE

theorem editorGE_trans :
    ∀ a b c : EditorRow, editorGE a b → editorGE b c → editorGE a c :=
  fun _ _ _ hab hbc =>
    decide_eq_true (le_trans (of_decide_eq_true hbc) (of_decide_eq_true hab))

theorem editorGE_total : ∀ a b : EditorRow, editorGE a b || editorGE b a := by
  intro a b
  unfold editorGE
  rcases le_total a.last_activity b.last_activity with h | h <;> simp [h]

/-- In a list of users with pairwise-distinct ids, `find?` by id returns the
member with that id. -/
theorem find?_user_eq_some (l : List UserRow)
    (hp : l.Pairwise fun a b => a.id ≠ b.id) (u : UserRow) (hu : u ∈ l)
    (k : Nat) (hk : u.id = k) : l.find? (fun v => v.id == k) = some u := by
  induction l with
  | nil => cases hu
  | cons a t ih =>
      rcases List.mem_cons.mp hu with rfl | hut
      · exact List.find?_cons_of_pos _ (by simpa using hk)
      · have hne : a.id ≠ u.id := (List.pairwise_cons.mp hp).1 u hut
        rw [List.find?_cons_of_neg]
        · exact ih (List.pairwise_cons.mp hp).2 hut
        · simp only [beq_iff_eq]
          exact fun h => hne (by rw [h, hk])

/-- In a list of files with pairwise-distinct ids, `find?` by id returns the
member with that id. -/
theorem find?_file_eq_some (l : List FileRow)
    (hp : l.Pairwise fun a b => a.id ≠ b.id) (f : FileRow) (hf : f ∈ l)
    (k : Nat) (hk : f.id = k) : l.find? (fun v => v.id == k) = some f := by
  induction l with
  | nil => cases hf
  | cons a t ih =>
      rcases List.mem_cons.mp hf with rfl | hft
      · exact List.find?_cons_of_pos _ (by simpa using hk)
      · have hne : a.id ≠ f.id := (List.pairwise_cons.mp hp).1 f hft
        rw [List.find?_cons_of_neg]
        · exact ih (List.pairwise_cons.mp hp).2 hft
        · simp only [beq_iff_eq]
          exact fun h => hne (by rw [h, hk])

/-- C7: `get_current_editors pat` returns exactly the open sessions
(`ended_at IS NULL`) whose file path matches the pattern, each row carrying
the username, file path, file name, `last_activity` and session id, ordered
by `last_activity` descending — under primary-key uniqueness of user and
file ids. -/
theorem get_current_editors_spec (st : DBState) (pat : String)
    (hu : st.users.Pairwise fun a b => a.id ≠ b.id)
    (hf : st.files.Pairwise fun a b => a.id ≠ b.id) :
    (∀ r, r ∈ get_current_editors st pat ↔
      ∃ s ∈ st.file_sessions, ∃ u ∈ st.users, ∃ f ∈ st.files,
        u.id = s.user_id ∧ f.id = s.file_id ∧ s.ended_at = none ∧
        sqlLike pat f.file_path = true ∧
        r = ⟨u.username, f.file_path, f.file_name, s.last_activity, s.id⟩) ∧
    (get_current_editors st pat).Pairwise
      fun a b => b.last_activity ≤ a.last_activity := by
  constructor
  · intro r
    rw [get_current_editors, List.mem_mergeSort]
    unfold editorRows
    rw [List.mem_filterMap]
    constructor
    · rintro ⟨s, hs, hr⟩
      cases hu1 : st.users.find? (fun u => u.id == s.user_id) with
      | none =>
          simp only [hu1] at hr
          cases hr
      | some u =>
          cases hf1 : st.files.find? (fun f => f.id == s.file_id) with
          | none =>
              simp only [hu1, hf1] at hr
              cases hr
          | some f =>
              simp only [hu1, hf1] at hr
              by_cases hcond : (s.ended_at.isNone && sqlLike pat f.file_path) = true
              · rw [if_pos hcond] at hr
                obtain ⟨hopen, hlike⟩ := (Bool.and_eq_true _ _).mp hcond
                cases hr
                exact ⟨s, hs, u, List.mem_of_find?_eq_some hu1,
                  f, List.mem_of_find?_eq_some hf1,
                  by simpa using List.find?_some hu1,
                  by simpa using List.find?_some hf1,
                  Option.isNone_iff_eq_none.mp hopen, hlike, rfl⟩
              · rw [if_neg hcond] at hr
                cases hr
    · rintro ⟨s, hs, u, hum, f, hfm, hui, hfi, hopen, hlike, rfl⟩
      refine ⟨s, hs, ?_⟩
      rw [find?_user_eq_some st.users hu u hum s.user_id hui,
        find?_file_eq_some st.files hf f hfm s.file_id hfi]
      dsimp only
      rw [if_pos ((Bool.and_eq_true _ _).mpr
        ⟨Option.isNone_iff_eq_none.mpr hopen, hlike⟩)]
  · exact (List.sorted_mergeSort editorGE_trans editorGE_total
      (editorRows st pat)).imp fun h => of_decide_eq_true h

/-- Witness for C7 on the concrete state `stC`: its single open session on
`/monitor/a.py` matches the pattern and appears in the result. -/
theorem get_current_editors_spec_witness :
    (⟨"alice", "/monitor/a.py", "a.py", 10, 1⟩ : EditorRow) ∈
      get_current_editors stC "/monitor/%" :=
  ((get_current_editors_spec stC "/monitor/%" (by simp [stC, aliceU, pyFile])
      (by simp [stC, aliceU, pyFile])).1 _).mpr
    ⟨⟨1, 1, 1, 10, 10, none, none, none, false, 0⟩, by decide,
      aliceU, by decide, pyFile, by decide, by decide, by decide, by decide,
      by decide, by decide⟩

/-- Result row of the `sessions_with_comments` view (init.sql lines 99-116):
session fields joined with user and file and a LEFT JOIN of the comment (the
comment columns are nullable). -/
structure TimelineRow where
  session_id : Nat
  started_at : Int
  ended_at : Option Int
  last_activity : Int
  resume_count : Nat
  username : String
  file_path : String
  file_name : String
  comment_content : Option String
  change_type : Option String
  comment_created_at : Option Int
deriving DecidableEq

/-- The `sessions_with_comments` view (init.sql lines 99-116): sessions
restricted by `WHERE is_commented = TRUE`, joined with their user and file
rows (ids are primary keys, so the join partner is the `find?` lookup) and
LEFT JOINed with comments on session id. -/
def sessions_with_comments (st : DBState) : List TimelineRow :=
  st.file_sessions.filterMap fun s =>
    match st.users.find? (fun u => u.id == s.user_id),
          st.files.find? (fun f => f.id == s.file_id) with
    | some u, some f =>
        if s.is_commented then
          some ⟨s.id, s.started_at, s.ended_at, s.last_activity, s.resume_count,
            u.username, f.file_path, f.file_name,
            (st.comments.find? (fun c => c.session_id == s.id)).map (fun c => c.content),
            (st.comments.find? (fun c => c.session_id == s.id)).map (fun c => c.change_type),
            (st.comments.find? (fun c => c.session_id == s.id)).map (fun c => c.created_at)⟩
        else none
    | _, _ => none

/-- Calendar day of a timestamp: the frontend groups by
`toLocaleDateString` of `started_at` (src/unnamed/part_000 line 150),
modelled as whole days since the epoch. -/
def calendarDay (t : Int) : Int := t / 86400

/-- One step of the frontend `reduce` (src/unnamed/part_000 lines 149-154):
append the row to its day's bucket, creating the bucket on first sight. -/
def addToGroups (acc : List (Int × List TimelineRow)) (r : TimelineRow) :
    List (Int × List TimelineRow) :=
  if acc.any fun p => p.1 == calendarDay r.started_at then
    acc.map fun p =>
      if p.1 == calendarDay r.started_at then (p.1, p.2 ++ [r]) else p
  else acc ++ [(calendarDay r.started_at, [r])]

/-- The change timeline rendered by src/unnamed/part_000 lines 146-166: the
view's rows grouped by calendar day of `started_at`. -/
def changeTimeline (st : DBState) : List (Int × List TimelineRow) :=
  (sessions_with_comments st).foldl addToGroups []

/-- C8 counterexample: the claim "changeTimeline returns every session …;
sessions with no comment still appear" fails on the code.  In state `stD` the
closed session 1 has no comment (`is_commented = FALSE`), and the
`sessions_with_comments` view — filtered by `WHERE fs.is_commented = TRUE`
(init.sql line 116) — is empty, so the timeline built on it is empty and the
session appears nowhere. -/
theorem changeTimeline_misses_uncommented :
    closedSession ∈ stD.file_sessions ∧ closedSession.is_commented = false ∧
    sessions_with_comments stD = [] ∧ changeTimeline stD = [] := by decide

/-- In a list of comments with pairwise-distinct session ids, `find?` by
session id returns the member with that session id. -/
theorem find?_comment_eq_some (l : List CommentRow)
    (hp : l.Pairwise fun a b => a.session_id ≠ b.session_id) (c : CommentRow)
    (hc : c ∈ l) (k : Nat) (hk : c.session_id = k) :
    l.find? (fun v => v.session_id == k) = some c := by
  induction l with
  | nil => cases hc
  | cons a t ih =>
      rcases List.mem_cons.mp hc with rfl | hct
      · exact List.find?_cons_of_pos _ (by simpa using hk)
      · have hne : a.session_id ≠ c.session_id := (List.pairwise_cons.mp hp).1 c hct
        rw [List.find?_cons_of_neg]
        · exact ih (List.pairwise_cons.mp hp).2 hct
        · simp only [beq_iff_eq]
          exact fun h => hne (by rw [h, hk])

/-- Membership in the groups after one `addToGroups` step. -/
theorem mem_addToGroups (acc : List (Int × List TimelineRow)) (x : TimelineRow)
    (d : Int) (r : TimelineRow) :
    (∃ g, (d, g) ∈ addToGroups acc x ∧ r ∈ g) ↔
      (∃ g, (d, g) ∈ acc ∧ r ∈ g) ∨ (r = x ∧ calendarDay x.started_at = d) := by
  unfold addToGroups
  by_cases hin : (acc.any fun p => p.1 == calendarDay x.started_at) = true
  · rw [if_pos hin]
    constructor
    · rintro ⟨g, hg, hrg⟩
      obtain ⟨p, hp, hpe⟩ := List.mem_map.mp hg
      by_cases hpd : (p.1 == calendarDay x.started_at) = true
      · rw [if_pos hpd] at hpe
        have hd : p.1 = d := congrArg Prod.fst hpe
        have hgeq : p.2 ++ [x] = g := congrArg Prod.snd hpe
        subst hd
        subst hgeq
        rcases List.mem_append.mp hrg with h1 | h2
        · exact .inl ⟨p.2, hp, h1⟩
        · have hrx : r = x := by simpa using h2
          exact .inr ⟨hrx, (beq_iff_eq.mp hpd).symm⟩
      · rw [if_neg hpd] at hpe
        subst hpe
        exact .inl ⟨g, hp, hrg⟩
    · rintro (⟨g, hg, hrg⟩ | ⟨rfl, hd⟩)
      · by_cases hgd : (d == calendarDay x.started_at) = true
        · refine ⟨g ++ [x], List.mem_map.mpr ⟨(d, g), hg, by rw [if_pos hgd]⟩,
            List.mem_append_left _ hrg⟩
        · exact ⟨g, List.mem_map.mpr ⟨(d, g), hg, by rw [if_neg hgd]⟩, hrg⟩
      · obtain ⟨p, hp, hpd⟩ := List.any_eq_true.mp hin
        refine ⟨p.2 ++ [r], List.mem_map.mpr ⟨p, hp, ?_⟩, List.mem_append_right _ (by simp)⟩
        rw [if_pos hpd, (beq_iff_eq.mp hpd).trans hd]
  · rw [if_neg hin]
    constructor
    · rintro ⟨g, hg, hrg⟩
      rcases List.mem_append.mp hg with h1 | h2
      · exact .inl ⟨g, h1, hrg⟩
      · have hpair : (d, g) = (calendarDay x.started_at, [x]) := by simpa using h2
        have hd : d = calendarDay x.started_at := congrArg Prod.fst hpair
        have hgx : g = [x] := congrArg Prod.snd hpair
        subst hgx
        exact .inr ⟨by simpa using hrg, hd.symm⟩
    · rintro (⟨g, hg, hrg⟩ | ⟨rfl, hd⟩)
      · exact ⟨g, List.mem_append_left _ hg, hrg⟩
      · exact ⟨[r], List.mem_append_right _ (by simp [hd]), by simp⟩

/-- Membership in the groups built by the frontend fold. -/
theorem mem_foldl_addToGroups (rows : List TimelineRow)
    (acc : List (Int × List TimelineRow)) (d : Int) (r : TimelineRow) :
    (∃ g, (d, g) ∈ rows.foldl addToGroups acc ∧ r ∈ g) ↔
      (∃ g, (d, g) ∈ acc ∧ r ∈ g) ∨ (r ∈ rows ∧ calendarDay r.started_at = d) := by
  induction rows generalizing acc with
  | nil => simp
  | cons x t ih =>
      rw [List.foldl_cons, ih, mem_addToGroups]
      constructor
      · rintro ((h | ⟨rfl, hd⟩) | ⟨ht, hd⟩)
        · exact .inl h
        · exact .inr ⟨List.mem_cons_self _ _, hd⟩
        · exact .inr ⟨List.mem_cons_of_mem _ ht, hd⟩
      · rintro (h | ⟨hmem, hd⟩)
        · exact .inl (.inl h)
        · rcases List.mem_cons.mp hmem with rfl | ht
          · exact .inl (.inr ⟨rfl, hd⟩)
          · exact .inr ⟨ht, hd⟩

/-- C8 (amended): the change timeline contains exactly the sessions whose
`is_commented` flag is `TRUE` — the `sessions_with_comments` view filters by
it, so uncommented sessions do not appear — joined with user and file and
carrying the bound comment when one exists (no comment yields null comment
columns); the frontend groups these rows by calendar day of `started_at`:
a row lies in the bucket of day `d` exactly when it is a view row with
`calendarDay started_at = d`. -/
theorem changeTimeline_spec (st : DBState)
    (hu : st.users.Pairwise fun a b => a.id ≠ b.id)
    (hf : st.files.Pairwise fun a b => a.id ≠ b.id)
    (hc : st.comments.Pairwise fun a b => a.session_id ≠ b.session_id) :
    (∀ r, r ∈ sessions_with_comments st ↔
      ∃ s ∈ st.file_sessions, s.is_commented = true ∧
        ∃ u ∈ st.users, ∃ f ∈ st.files, u.id = s.user_id ∧ f.id = s.file_id ∧
          ((∃ c ∈ st.comments, c.session_id = s.id ∧
              r = ⟨s.id, s.started_at, s.ended_at, s.last_activity, s.resume_count,
                   u.username, f.file_path, f.file_name,
                   some c.content, some c.change_type, some c.created_at⟩) ∨
            ((∀ c ∈ st.comments, c.session_id ≠ s.id) ∧
              r = ⟨s.id, s.started_at, s.ended_at, s.last_activity, s.resume_count,
                   u.username, f.file_path, f.file_name, none, none, none⟩))) ∧
    (∀ d r, (∃ g, (d, g) ∈ changeTimeline st ∧ r ∈ g) ↔
      (r ∈ sessions_with_comments st ∧ calendarDay r.started_at = d)) := by
  constructor
  · intro r
    unfold sessions_with_comments
    rw [List.mem_filterMap]
    constructor
    · rintro ⟨s, hs, hr⟩
      cases hu1 : st.users.find? (fun u => u.id == s.user_id) with
      | none =>
          simp only [hu1] at hr
          cases hr
      | some u =>
          cases hf1 : st.files.find? (fun f => f.id == s.file_id) with
          | none =>
              simp only [hu1, hf1] at hr
              cases hr
          | some f =>
              simp only [hu1, hf1] at hr
              by_cases hcm : s.is_commented = true
              · rw [if_pos hcm] at hr
                refine ⟨s, hs, hcm, u, List.mem_of_find?_eq_some hu1,
                  f, List.mem_of_find?_eq_some hf1,
                  by simpa using List.find?_some hu1,
                  by simpa using List.find?_some hf1, ?_⟩
                cases hc1 : st.comments.find? (fun c => c.session_id == s.id) with
                | none =>
                    refine .inr ⟨?_, ?_⟩
                    · intro c hcmem
                      have := List.find?_eq_none.mp hc1 c hcmem
                      simpa using this
                    · rw [hc1] at hr
                      exact (Option.some.inj hr).symm
                | some c =>
                    refine .inl ⟨c, List.mem_of_find?_eq_some hc1,
                      by simpa using List.find?_some hc1, ?_⟩
                    rw [hc1] at hr
                    exact (Option.some.inj hr).symm
              · rw [if_neg hcm] at hr
                cases hr
    · rintro ⟨s, hs, hcm, u, hum, f, hfm, hui, hfi, hrest⟩
      refine ⟨s, hs, ?_⟩
      rw [find?_user_eq_some st.users hu u hum s.user_id hui,
        find?_file_eq_some st.files hf f hfm s.file_id hfi]
      dsimp only
      rw [if_pos hcm]
      rcases hrest with ⟨c, hcmem, hcs, rfl⟩ | ⟨hnone, rfl⟩
      · rw [find?_comment_eq_some st.comments hc c hcmem s.id hcs]
        rfl
      · rw [List.find?_eq_none.mpr fun c hcmem => by simpa using hnone c hcmem]
        rfl
  · intro d r
    unfold changeTimeline
    rw [mem_foldl_addToGroups]
    simp

/-- The view row of the commented session in `stE`. -/
def demoRow : TimelineRow :=
  ⟨1, 10, some 30, 10, 0, "alice", "/monitor/a.py", "a.py",
   some "fixed bug", some "bugfix", some 40⟩

/-- Witness for C8 (amended) on the concrete state `stE`: the commented
session's view row lies in the bucket of day 0 of the timeline. -/
theorem changeTimeline_spec_witness :
    ∃ g, (0, g) ∈ changeTimeline stE ∧ demoRow ∈ g :=
  ((changeTimeline_spec stE (by decide) (by decide) (by decide)).2 0 demoRow).mpr
    ⟨by decide, by decide⟩

end FileMonitoring
